import Mathlib

/-
Verification of the two-agent conversation framework (agent.py, run_agent.py).
The Python source is shallowly embedded: strings are lists of characters,
the LLM clients are abstracted as an oracle supplying each raw response, and
the LangGraph wiring is an explicit step function on an explicit state type.
-/

set_option maxRecDepth 4000

abbrev Str := List Char

/-- Whitespace characters stripped by Python str.strip and matched by the
regex class backslash-s (ASCII fragment: space, tab, newline, carriage
return, vertical tab, form feed). -/
def isPySpace (c : Char) : Bool :=
  c == ' ' || c == '\t' || c == '\n' || c == '\r' || c == Char.ofNat 11 || c == Char.ofNat 12

/-- Python str.strip: remove leading and trailing whitespace. -/
def pyStrip (l : Str) : Str :=
  ((l.dropWhile isPySpace).reverse.dropWhile isPySpace).reverse

/-- Matcher for the leading-label regex of clean_response_content
(pattern: caret, bracket, Agent, a digit, bracket, colon); returns the text
after the colon when the label is present. -/
def leadLabelRest (l : Str) : Option Str :=
  match l with
  | '[' :: 'A' :: 'g' :: 'e' :: 'n' :: 't' :: ' ' :: d :: ']' :: ':' :: rest =>
    if d.isDigit then some rest else none
  | _ => none

/-- Whether the string begins with a participant label of the shape
bracket-Agent-digit-bracket-colon. -/
def startsWithAgentLabel (l : Str) : Bool :=
  (leadLabelRest l).isSome

/-- First substitution of clean_response_content: re.sub of the pattern
anchored at the start of the string, followed by greedy whitespace. Without
re.MULTILINE the anchored pattern can match only once, at position 0. -/
def stripLeadingLabel (l : Str) : Str :=
  match leadLabelRest l with
  | some rest => rest.dropWhile isPySpace
  | none => l

/-- Whether the string starts with a newline immediately followed by a
participant label, i.e. a match of the second regex of
clean_response_content at this position. -/
def isNlLabelAt (l : Str) : Bool :=
  match l with
  | c0 :: c1 :: c2 :: c3 :: c4 :: c5 :: c6 :: c7 :: d :: c9 :: c10 :: _ =>
    c0 == '\n' && (c1 == '[' && (c2 == 'A' && (c3 == 'g' && (c4 == 'e' && (c5 == 'n' &&
      (c6 == 't' && (c7 == ' ' && (d.isDigit && (c9 == ']' && c10 == ':')))))))))
  | _ => false

/-- Second substitution of clean_response_content: with re.DOTALL the greedy
dot-star runs to the end of the string, so the substitution deletes
everything from the first newline-preceded participant label onward. -/
def stripTrailingLabel (l : Str) : Str :=
  match l with
  | [] => []
  | c :: rest => if isNlLabelAt (c :: rest) then [] else c :: stripTrailingLabel rest

/-- Whether a newline-preceded participant label occurs anywhere in the
string. -/
def hasNlLabel (l : Str) : Bool :=
  match l with
  | [] => false
  | c :: rest => isNlLabelAt (c :: rest) || hasNlLabel rest

/-- One fragment of a structured (list-valued) response content, as
discriminated by clean_response_content: an object with a text attribute, a
dict with a text key, a dict without one (contributing its generic string
form), or any other value (likewise contributing its string form). -/
inductive Fragment
  | attrText (t : Str)
  | dictWithText (t : Str)
  | dictNoText (s : Str)
  | other (s : Str)
deriving DecidableEq

/-- Text contributed by one fragment to the concatenation in
clean_response_content. -/
def Fragment.text : Fragment → Str
  | .attrText t => t
  | .dictWithText t => t
  | .dictNoText s => s
  | .other s => s

/-- Shape of response.content as inspected by clean_response_content: a
plain string, a list of fragments, or anything else (used via its generic
string form). -/
inductive RawContent
  | str (s : Str)
  | list (blocks : List Fragment)
  | other (s : Str)
deriving DecidableEq

/-- Content-extraction phase of clean_response_content (the isinstance
chain): a string is used verbatim, a list is concatenated fragment by
fragment with no separator, anything else contributes its string form. -/
def extractContent : RawContent → Str
  | .str s => s
  | .list blocks => (blocks.map Fragment.text).flatten
  | .other s => s

/-- Label-stripping and trimming phase of clean_response_content, applied
to the extracted text. -/
def cleanStr (l : Str) : Str :=
  pyStrip (stripTrailingLabel (stripLeadingLabel l))

/-- Embedding of clean_response_content from agent.py. -/
def clean_response_content (r : RawContent) : Str :=
  cleanStr (extractContent r)

/-- Prefix tag written by agent_1_node in front of its response. -/
def labelAgent1 : Str := ['[', 'A', 'g', 'e', 'n', 't', ' ', '1', ']', ':', ' ']

/-- Prefix tag written by agent_2_node in front of its response. -/
def labelAgent2 : Str := ['[', 'A', 'g', 'e', 'n', 't', ' ', '2', ']', ':', ' ']

/-- Prefix tag written by summarizer_node in front of its response. -/
def labelSummarizer : Str :=
  ['[', 'S', 'u', 'm', 'm', 'a', 'r', 'i', 'z', 'e', 'r', ']', ':', ' ']

/-- Tag searched for (substring containment) by agent_2_node to classify a
transcript entry as coming from Agent 1. -/
def tagAgent1 : Str := ['[', 'A', 'g', 'e', 'n', 't', ' ', '1', ']']

/-- Tag searched for by agent_2_node to classify a transcript entry as
coming from Agent 2. -/
def tagAgent2 : Str := ['[', 'A', 'g', 'e', 'n', 't', ' ', '2', ']']

/-- Fallback sentence substituted by agent_1_node for an empty normalized
response. -/
def fallbackAgent1 : Str := "I\x27d like to hear your thoughts on this topic.".toList

/-- Fallback sentence substituted by agent_2_node for an empty normalized
response. -/
def fallbackAgent2 : Str :=
  "That\x27s an interesting point. Let me share my perspective on this.".toList

/-- Fallback sentence substituted by summarizer_node for an empty normalized
response. -/
def fallbackSummarizer : Str :=
  "Summary: The agents have been discussing various aspects of the topic.".toList

example : cleanStr "[Agent 1]:  hi there ".toList = "hi there".toList := by decide
example : cleanStr "x\n[Agent 2]: junk\nmore".toList = "x".toList := by decide
example : cleanStr "[Summarizer]: hi".toList = "[Summarizer]: hi".toList := by decide
example : cleanStr "[Agent 1]: [Agent 2]: hi".toList = "[Agent 2]: hi".toList := by decide
example :
    clean_response_content
      (RawContent.list [Fragment.dictWithText "ab".toList, Fragment.other "cd".toList]) =
      "abcd".toList := by decide

/-- Message roles of the langchain message classes used by the source
(SystemMessage, HumanMessage, AIMessage). -/
inductive Role
  | system
  | user
  | assistant
deriving DecidableEq

/-- One transcript entry: a role-tagged content string. Every entry the
nodes append is an AIMessage, so the speaker is encoded only in the content
prefix. -/
structure Msg where
  role : Role
  content : Str
deriving DecidableEq

/-- Embedding of ConversationState from agent.py. The messages field is the
append-only transcript accumulated by the add_messages reducer. -/
structure ConvState where
  messages : List Msg
  topic : Str
  current_speaker : String
  turn_count : Nat
  max_turns : Nat
  summary_interval : Nat
deriving DecidableEq

/-- Embedding of agent_1_node. The network call is abstracted: the raw
response content is an explicit argument. The node normalizes the response,
substitutes the fallback when it is empty, appends one labeled AIMessage and
increments turn_count. -/
def agent_1_node (s : ConvState) (response : RawContent) : ConvState :=
  let content := clean_response_content response
  let content := if content = [] then fallbackAgent1 else content
  { s with
    messages := s.messages ++ [⟨Role.assistant, labelAgent1 ++ content⟩]
    current_speaker := "agent_2"
    turn_count := s.turn_count + 1 }

/-- Embedding of agent_2_node: same shape as agent_1_node with the Agent 2
label, fallback, and handoff to agent_1. -/
def agent_2_node (s : ConvState) (response : RawContent) : ConvState :=
  let content := clean_response_content response
  let content := if content = [] then fallbackAgent2 else content
  { s with
    messages := s.messages ++ [⟨Role.assistant, labelAgent2 ++ content⟩]
    current_speaker := "agent_1"
    turn_count := s.turn_count + 1 }

/-- Embedding of summarizer_node: appends one labeled AIMessage, hands
control back to agent_1, and leaves turn_count unchanged. -/
def summarizer_node (s : ConvState) (response : RawContent) : ConvState :=
  let content := clean_response_content response
  let content := if content = [] then fallbackSummarizer else content
  { s with
    messages := s.messages ++ [⟨Role.assistant, labelSummarizer ++ content⟩]
    current_speaker := "agent_1"
    turn_count := s.turn_count }

/-- Embedding of route_after_agent: end once turn_count has reached
max_turns, otherwise summarize on positive multiples of summary_interval,
otherwise continue with the other participant. -/
def route_after_agent (s : ConvState) : String :=
  if s.max_turns ≤ s.turn_count then "end"
  else if 0 < s.turn_count ∧ s.turn_count % s.summary_interval = 0 then "summarize"
  else "continue"

/-- Embedding of should_continue, the conditional edge leaving the
summarizer node. -/
def should_continue (s : ConvState) : String :=
  if s.max_turns ≤ s.turn_count then "end" else "continue"

/-- Nodes of the compiled LangGraph, plus the END sentinel. -/
inductive GNode
  | agent1
  | agent2
  | summarizer
  | done
deriving DecidableEq

/-- One superstep of the compiled graph: run the current node on the state
(with the oracle-supplied raw response), then evaluate the conditional edge
on the updated state, exactly as graph_builder wires it. -/
def stepNode (n : GNode) (s : ConvState) (response : RawContent) : GNode × ConvState :=
  match n with
  | GNode.agent1 =>
    let s1 := agent_1_node s response
    let r := route_after_agent s1
    (if r = "summarize" then GNode.summarizer
     else if r = "end" then GNode.done else GNode.agent2, s1)
  | GNode.agent2 =>
    let s1 := agent_2_node s response
    let r := route_after_agent s1
    (if r = "summarize" then GNode.summarizer
     else if r = "end" then GNode.done else GNode.agent1, s1)
  | GNode.summarizer =>
    let s1 := summarizer_node s response
    (if should_continue s1 = "end" then GNode.done else GNode.agent1, s1)
  | GNode.done => (GNode.done, s)

/-- Fueled execution of the graph. The oracle maps the index of each client
call (the transcript length at call time) to the raw response content; fuel
bounds the number of supersteps and is chosen large enough that the run
always reaches END. -/
def runAux (o : Nat → RawContent) : Nat → GNode → ConvState → GNode × ConvState
  | 0, n, s => (n, s)
  | _ + 1, GNode.done, s => (GNode.done, s)
  | fuel + 1, GNode.agent1, s =>
    let p := stepNode GNode.agent1 s (o s.messages.length)
    runAux o fuel p.1 p.2
  | fuel + 1, GNode.agent2, s =>
    let p := stepNode GNode.agent2 s (o s.messages.length)
    runAux o fuel p.1 p.2
  | fuel + 1, GNode.summarizer, s =>
    let p := stepNode GNode.summarizer s (o s.messages.length)
    runAux o fuel p.1 p.2

/-- Initial state passed by run_agent.py to app.invoke: empty transcript,
turn_count 0, agent_1 speaking first. -/
def initState (topic : Str) (maxTurns summaryInterval : Nat) : ConvState :=
  { messages := []
    topic := topic
    current_speaker := "agent_1"
    turn_count := 0
    max_turns := maxTurns
    summary_interval := summaryInterval }

/-- Complete conversation run: the graph enters at agent_1 (edge from
START) and executes until END. The fuel 2 * max_turns + 2 dominates every
possible superstep count. -/
def runConversation (o : Nat → RawContent) (topic : Str)
    (maxTurns summaryInterval : Nat) : GNode × ConvState :=
  runAux o (2 * maxTurns + 2) GNode.agent1 (initState topic maxTurns summaryInterval)

/-- Whether a transcript entry is a participant turn, recognized by its
label prefix as run_agent.py does. -/
def isParticipantMsg (m : Msg) : Bool :=
  labelAgent1.isPrefixOf m.content || labelAgent2.isPrefixOf m.content

/-- Whether a transcript entry is a Summarizer entry, recognized by its
label prefix. -/
def isSummarizerMsg (m : Msg) : Bool :=
  labelSummarizer.isPrefixOf m.content

/-- Number of participant turns recorded in a transcript. -/
def pcount (ms : List Msg) : Nat := (ms.filter isParticipantMsg).length

/-- Number of Summarizer entries recorded in a transcript. -/
def scount (ms : List Msg) : Nat := (ms.filter isSummarizerMsg).length

/-- Substring containment, modelling the Python expression pat in s. -/
def hasSub (l pat : Str) : Bool :=
  match l with
  | [] => pat.isEmpty
  | c :: rest => pat.isPrefixOf (c :: rest) || hasSub rest pat

/-- Message history built by agent_1_node for its client call (after the
system prompt, which is abstracted as the sys argument): the shared
transcript is passed through unchanged, or a seed HumanMessage when the
transcript is empty. -/
def agent_1_messages (sys : Msg) (s : ConvState) : List Msg :=
  if s.messages = [] then
    [sys, ⟨Role.user, "Begin the discussion about: ".toList ++ s.topic⟩]
  else
    sys :: s.messages

/-- Message history built by agent_2_node for its client call: each
transcript entry is label-stripped and re-rolled, Agent 1 entries becoming
HumanMessages, Agent 2 entries AIMessages; entries matching neither tag
(such as Summarizer entries) are dropped. -/
def agent_2_messages (sys : Msg) (s : ConvState) : List Msg :=
  sys :: s.messages.filterMap (fun m =>
    let cleaned := pyStrip (stripLeadingLabel m.content)
    if hasSub m.content tagAgent1 then some ⟨Role.user, cleaned⟩
    else if hasSub m.content tagAgent2 then some ⟨Role.assistant, cleaned⟩
    else none)

example :
    (runConversation (fun _ => RawContent.str "hi".toList) [] 4 4).2.messages.length = 4 := by
  decide
example :
    scount (runConversation (fun _ => RawContent.str "hi".toList) [] 4 4).2.messages = 0 := by
  decide
example :
    (runConversation (fun _ => RawContent.str "hi".toList) [] 1 4).1 = GNode.done := by
  decide
example :
    scount (runConversation (fun _ => RawContent.str "hi".toList) [] 8 4).2.messages = 1 := by
  decide

theorem isPrefixOf_append_self (l r : Str) : l.isPrefixOf (l ++ r) = true :=
  List.isPrefixOf_iff_prefix.mpr (List.prefix_append l r)

theorem isPrefixOf_false_of_ne_at {p l : Str} {i : Nat} {a b : Char}
    (ha : p[i]? = some a) (hb : l[i]? = some b) (hab : a ≠ b) :
    p.isPrefixOf l = false := by
  apply Bool.eq_false_iff.mpr
  intro hpl
  obtain ⟨t, rfl⟩ := List.isPrefixOf_iff_prefix.mp hpl
  have hi : i < p.length := (List.getElem?_eq_some.mp ha).1
  rw [List.getElem?_append_left hi, ha] at hb
  exact hab (Option.some.inj hb)

theorem labelAgent1_not_prefix_sum (r : Str) :
    labelAgent1.isPrefixOf (labelSummarizer ++ r) = false := by
  refine isPrefixOf_false_of_ne_at (i := 1) (a := 'A') (b := 'S') (by decide) ?_ (by decide)
  rw [List.getElem?_append_left (by decide)]
  decide

theorem labelAgent2_not_prefix_sum (r : Str) :
    labelAgent2.isPrefixOf (labelSummarizer ++ r) = false := by
  refine isPrefixOf_false_of_ne_at (i := 1) (a := 'A') (b := 'S') (by decide) ?_ (by decide)
  rw [List.getElem?_append_left (by decide)]
  decide

theorem labelSum_not_prefix_a1 (r : Str) :
    labelSummarizer.isPrefixOf (labelAgent1 ++ r) = false := by
  refine isPrefixOf_false_of_ne_at (i := 1) (a := 'S') (b := 'A') (by decide) ?_ (by decide)
  rw [List.getElem?_append_left (by decide)]
  decide

theorem labelSum_not_prefix_a2 (r : Str) :
    labelSummarizer.isPrefixOf (labelAgent2 ++ r) = false := by
  refine isPrefixOf_false_of_ne_at (i := 1) (a := 'S') (b := 'A') (by decide) ?_ (by decide)
  rw [List.getElem?_append_left (by decide)]
  decide

theorem isParticipantMsg_a1 (c : Str) :
    isParticipantMsg ⟨Role.assistant, labelAgent1 ++ c⟩ = true := by
  simp [isParticipantMsg, isPrefixOf_append_self]

theorem isParticipantMsg_a2 (c : Str) :
    isParticipantMsg ⟨Role.assistant, labelAgent2 ++ c⟩ = true := by
  simp [isParticipantMsg, isPrefixOf_append_self]

theorem isParticipantMsg_sum (c : Str) :
    isParticipantMsg ⟨Role.assistant, labelSummarizer ++ c⟩ = false := by
  simp [isParticipantMsg, labelAgent1_not_prefix_sum, labelAgent2_not_prefix_sum]

theorem isSummarizerMsg_a1 (c : Str) :
    isSummarizerMsg ⟨Role.assistant, labelAgent1 ++ c⟩ = false := by
  simp [isSummarizerMsg, labelSum_not_prefix_a1]

theorem isSummarizerMsg_a2 (c : Str) :
    isSummarizerMsg ⟨Role.assistant, labelAgent2 ++ c⟩ = false := by
  simp [isSummarizerMsg, labelSum_not_prefix_a2]

theorem isSummarizerMsg_sum (c : Str) :
    isSummarizerMsg ⟨Role.assistant, labelSummarizer ++ c⟩ = true := by
  simp [isSummarizerMsg, isPrefixOf_append_self]

theorem pcount_append (ms : List Msg) (m : Msg) :
    pcount (ms ++ [m]) = pcount ms + (if isParticipantMsg m = true then 1 else 0) := by
  simp only [pcount, List.filter_append, List.length_append, List.filter_cons,
    List.filter_nil]
  split <;> simp

theorem scount_append (ms : List Msg) (m : Msg) :
    scount (ms ++ [m]) = scount ms + (if isSummarizerMsg m = true then 1 else 0) := by
  simp only [scount, List.filter_append, List.length_append, List.filter_cons,
    List.filter_nil]
  split <;> simp

theorem isNlLabelAt_append {u : Str} (t : Str) (h : isNlLabelAt u = true) :
    isNlLabelAt (u ++ t) = true := by
  rcases u with _ | ⟨c0, _ | ⟨c1, _ | ⟨c2, _ | ⟨c3, _ | ⟨c4, _ | ⟨c5, _ | ⟨c6, _ | ⟨c7, _ |
    ⟨c8, _ | ⟨c9, _ | ⟨c10, rest⟩⟩⟩⟩⟩⟩⟩⟩⟩⟩⟩ <;>
    first
      | exact h
      | exact Bool.noConfusion h

theorem isNlLabelAt_mono {u v : Str} (hp : u <+: v) (h : isNlLabelAt u = true) :
    isNlLabelAt v = true := by
  obtain ⟨t, rfl⟩ := hp
  exact isNlLabelAt_append t h

theorem isNlLabelAt_head {l : Str} (h : isNlLabelAt l = true) :
    l.head? = some '\n' := by
  rcases l with _ | ⟨c0, _ | ⟨c1, _ | ⟨c2, _ | ⟨c3, _ | ⟨c4, _ | ⟨c5, _ | ⟨c6, _ | ⟨c7, _ |
    ⟨c8, _ | ⟨c9, _ | ⟨c10, rest⟩⟩⟩⟩⟩⟩⟩⟩⟩⟩⟩ <;>
    try exact Bool.noConfusion h
  have hc0 : (c0 == '\n') = true := by
    have h2 : (c0 == '\n' && (c1 == '[' && (c2 == 'A' && (c3 == 'g' && (c4 == 'e' &&
        (c5 == 'n' && (c6 == 't' && (c7 == ' ' && (c8.isDigit && (c9 == ']' &&
        c10 == ':')))))))))) = true := h
    simp only [Bool.and_eq_true] at h2
    exact h2.1
  have : c0 = '\n' := by
    have := beq_iff_eq.mp hc0
    exact this
  simp [this]

theorem stripTrailingLabel_cons_pos {c : Char} {rest : Str}
    (h : isNlLabelAt (c :: rest) = true) : stripTrailingLabel (c :: rest) = [] := by
  simp [stripTrailingLabel, h]

theorem stripTrailingLabel_cons_neg {c : Char} {rest : Str}
    (h : isNlLabelAt (c :: rest) = false) :
    stripTrailingLabel (c :: rest) = c :: stripTrailingLabel rest := by
  simp [stripTrailingLabel, h]

theorem hasNlLabel_cons (c : Char) (rest : Str) :
    hasNlLabel (c :: rest) = (isNlLabelAt (c :: rest) || hasNlLabel rest) := rfl

theorem stripTrailingLabel_prefix_self (l : Str) : stripTrailingLabel l <+: l := by
  induction l with
  | nil => exact List.nil_prefix
  | cons c rest ih =>
    by_cases h : isNlLabelAt (c :: rest) = true
    · rw [stripTrailingLabel_cons_pos h]
      exact List.nil_prefix
    · rw [stripTrailingLabel_cons_neg (Bool.not_eq_true _ |>.mp h)]
      obtain ⟨t, ht⟩ := ih
      exact ⟨t, by rw [List.cons_append, ht]⟩

theorem hasNlLabel_stripTrailingLabel (l : Str) :
    hasNlLabel (stripTrailingLabel l) = false := by
  induction l with
  | nil => rfl
  | cons c rest ih =>
    by_cases h : isNlLabelAt (c :: rest) = true
    · rw [stripTrailingLabel_cons_pos h]
      rfl
    · rw [stripTrailingLabel_cons_neg (Bool.not_eq_true _ |>.mp h)]
      rw [hasNlLabel_cons, Bool.or_eq_false_iff]
      refine ⟨?_, ih⟩
      by_contra habs
      rw [Bool.not_eq_false] at habs
      refine h (isNlLabelAt_mono ?_ habs)
      obtain ⟨t, ht⟩ := stripTrailingLabel_prefix_self rest
      exact ⟨t, by rw [List.cons_append, ht]⟩

theorem stripTrailingLabel_eq_self {l : Str} (h : hasNlLabel l = false) :
    stripTrailingLabel l = l := by
  induction l with
  | nil => rfl
  | cons c rest ih =>
    rw [hasNlLabel_cons, Bool.or_eq_false_iff] at h
    rw [stripTrailingLabel_cons_neg h.1, ih h.2]

theorem stripTrailingLabel_decomp (l : Str) :
    ∃ suf, l = stripTrailingLabel l ++ suf ∧ (suf = [] ∨ isNlLabelAt suf = true) := by
  induction l with
  | nil => exact ⟨[], rfl, Or.inl rfl⟩
  | cons c rest ih =>
    by_cases h : isNlLabelAt (c :: rest) = true
    · exact ⟨c :: rest, by rw [stripTrailingLabel_cons_pos h, List.nil_append], Or.inr h⟩
    · obtain ⟨suf, hsuf, ha⟩ := ih
      refine ⟨suf, ?_, ha⟩
      rw [stripTrailingLabel_cons_neg (Bool.not_eq_true _ |>.mp h), List.cons_append]
      exact congrArg (c :: ·) hsuf

theorem dropWhile_dropWhile (p : Char → Bool) (l : Str) :
    List.dropWhile p (List.dropWhile p l) = List.dropWhile p l := by
  induction l with
  | nil => rfl
  | cons c rest ih =>
    by_cases h : p c = true
    · simpa [List.dropWhile_cons, h] using ih
    · simp [List.dropWhile_cons, h]

theorem dropWhile_eq_self_of_prefixes {p : Char → Bool} {v u : Str} (hp : v <+: u)
    (hu : List.dropWhile p u = u) : List.dropWhile p v = v := by
  obtain ⟨t, rfl⟩ := hp
  cases v with
  | nil => rfl
  | cons c v2 =>
    by_cases hc : p c = true
    · exfalso
      rw [List.cons_append, List.dropWhile_cons, if_pos hc] at hu
      have hlen := (List.dropWhile_suffix (l := v2 ++ t) p).length_le
      rw [hu] at hlen
      simp at hlen
    · simp [List.dropWhile_cons, hc]

theorem pyStrip_prefix_dropWhile (l : Str) :
    pyStrip l <+: l.dropWhile isPySpace := by
  have h1 : (l.dropWhile isPySpace).reverse.dropWhile isPySpace <:+
      (l.dropWhile isPySpace).reverse := List.dropWhile_suffix _
  have h2 := List.reverse_prefix.mpr h1
  rwa [List.reverse_reverse] at h2

theorem pyStrip_infix_decomp (l : Str) : ∃ a b, l = a ++ pyStrip l ++ b := by
  obtain ⟨a, ha⟩ := List.dropWhile_suffix (l := l) isPySpace
  obtain ⟨b, hb⟩ := pyStrip_prefix_dropWhile l
  exact ⟨a, b, by rw [List.append_assoc, hb, ha]⟩

theorem dropWhile_eq_self_of_pyStrip {l : Str} (h : pyStrip l = l) :
    l.dropWhile isPySpace = l := by
  have hsfx := List.dropWhile_suffix (l := l) isPySpace
  apply hsfx.eq_of_length
  have h1 : (pyStrip l).length = l.length := by rw [h]
  have h2 : (pyStrip l).length ≤ (l.dropWhile isPySpace).length :=
    (pyStrip_prefix_dropWhile l).length_le
  have h3 : (l.dropWhile isPySpace).length ≤ l.length := hsfx.length_le
  omega

theorem dropWhile_reverse_eq_self_of_pyStrip {l : Str} (h : pyStrip l = l) :
    l.reverse.dropWhile isPySpace = l.reverse := by
  have h1 := dropWhile_eq_self_of_pyStrip h
  have h2 : pyStrip l = (l.reverse.dropWhile isPySpace).reverse := by
    unfold pyStrip
    rw [h1]
  rw [h] at h2
  have h3 := congrArg List.reverse h2
  rw [List.reverse_reverse] at h3
  exact h3.symm

theorem pyStrip_eq_self {l : Str} (h1 : l.dropWhile isPySpace = l)
    (h2 : l.reverse.dropWhile isPySpace = l.reverse) : pyStrip l = l := by
  unfold pyStrip
  rw [h1, h2, List.reverse_reverse]

theorem pyStrip_idem (l : Str) : pyStrip (pyStrip l) = pyStrip l := by
  have hu : (l.dropWhile isPySpace).dropWhile isPySpace = l.dropWhile isPySpace :=
    dropWhile_dropWhile _ _
  have h2 : (pyStrip l).dropWhile isPySpace = pyStrip l :=
    dropWhile_eq_self_of_prefixes (pyStrip_prefix_dropWhile l) hu
  have h3 : (pyStrip l).reverse.dropWhile isPySpace = (pyStrip l).reverse := by
    have hrv : (pyStrip l).reverse =
        ((l.dropWhile isPySpace).reverse).dropWhile isPySpace := by
      unfold pyStrip
      rw [List.reverse_reverse]
    rw [hrv, dropWhile_dropWhile]
  exact pyStrip_eq_self h2 h3

theorem hasNlLabel_append_right {w : Str} (u : Str) (h : hasNlLabel w = true) :
    hasNlLabel (u ++ w) = true := by
  induction u with
  | nil => exact h
  | cons c u2 ih =>
    rw [List.cons_append, hasNlLabel_cons, ih, Bool.or_true]

theorem hasNlLabel_of_isNlLabelAt {v : Str} (h : isNlLabelAt v = true) :
    hasNlLabel v = true := by
  cases v with
  | nil => exact Bool.noConfusion h
  | cons c rest => rw [hasNlLabel_cons, h, Bool.true_or]

theorem hasNlLabel_exists_of {l : Str} (h : hasNlLabel l = true) :
    ∃ u v, l = u ++ v ∧ isNlLabelAt v = true := by
  induction l with
  | nil => exact Bool.noConfusion h
  | cons c rest ih =>
    rw [hasNlLabel_cons, Bool.or_eq_true] at h
    rcases h with h | h
    · exact ⟨[], c :: rest, rfl, h⟩
    · obtain ⟨u, v, hl, hv⟩ := ih h
      exact ⟨c :: u, v, by rw [List.cons_append, ← hl], hv⟩

theorem hasNlLabel_infix_mono {y a b : Str} (h : hasNlLabel y = true) :
    hasNlLabel (a ++ y ++ b) = true := by
  obtain ⟨u, v, rfl, hv⟩ := hasNlLabel_exists_of h
  have h2 : hasNlLabel (v ++ b) = true :=
    hasNlLabel_of_isNlLabelAt (isNlLabelAt_append b hv)
  have h3 := hasNlLabel_append_right (a ++ u) h2
  rw [show a ++ (u ++ v) ++ b = a ++ u ++ (v ++ b) by simp [List.append_assoc]]
  exact h3

theorem hasNlLabel_pyStrip_false {l : Str} (h : hasNlLabel l = false) :
    hasNlLabel (pyStrip l) = false := by
  by_contra habs
  rw [Bool.not_eq_false] at habs
  obtain ⟨a, b, hab⟩ := pyStrip_infix_decomp l
  have h2 := hasNlLabel_infix_mono (a := a) (b := b) habs
  rw [← hab, h] at h2
  exact Bool.noConfusion h2

theorem hasNlLabel_append_cases {a b : Str} (h : hasNlLabel (a ++ b) = true) :
    '\n' ∈ a ∨ hasNlLabel b = true := by
  induction a with
  | nil => exact Or.inr h
  | cons c a2 ih =>
    rw [List.cons_append, hasNlLabel_cons, Bool.or_eq_true] at h
    rcases h with h | h
    · have hh := isNlLabelAt_head h
      simp only [List.head?_cons, Option.some.injEq] at hh
      exact Or.inl (by rw [hh]; exact List.mem_cons_self _ _)
    · rcases ih h with h2 | h2
      · exact Or.inl (List.mem_cons_of_mem _ h2)
      · exact Or.inr h2

theorem stripLeadingLabel_eq_self {l : Str} (h : startsWithAgentLabel l = false) :
    stripLeadingLabel l = l := by
  cases hop : leadLabelRest l with
  | none =>
    unfold stripLeadingLabel
    rw [hop]
  | some r =>
    exfalso
    unfold startsWithAgentLabel at h
    rw [hop] at h
    exact Bool.noConfusion h

theorem hasNlLabel_cleanStr (x : Str) : hasNlLabel (cleanStr x) = false :=
  hasNlLabel_pyStrip_false (hasNlLabel_stripTrailingLabel _)

/-- Participant label with an arbitrary digit, as matched by the regexes
and as written (with digit 1 or 2) by the agent nodes. -/
def agentLabelWithDigit (d : Char) : Str :=
  ['[', 'A', 'g', 'e', 'n', 't', ' ', d, ']', ':', ' ']

theorem head_not_space_of_dropWhile_eq_self {p : Char → Bool} {c : Char} {t : Str}
    (h : List.dropWhile p (c :: t) = c :: t) : p c = false := by
  by_cases hc : p c = true
  · exfalso
    rw [List.dropWhile_cons, if_pos hc] at h
    have hlen := (List.dropWhile_suffix (l := t) p).length_le
    rw [h] at hlen
    simp at hlen
  · exact Bool.not_eq_true _ |>.mp hc

theorem dropWhile_append_eq_self {p : Char → Bool} {a b : Str} (ha : a ≠ [])
    (h : List.dropWhile p a = a) : List.dropWhile p (a ++ b) = a ++ b := by
  cases a with
  | nil => exact absurd rfl ha
  | cons c t =>
    have hc := head_not_space_of_dropWhile_eq_self h
    rw [List.cons_append, List.dropWhile_cons, hc]
    simp

theorem cleanStr_strips_leading_agent_label {d : Char} {x : Str} (hd : d.isDigit = true)
    (hx1 : pyStrip x = x) (hx2 : hasNlLabel x = false) :
    cleanStr (agentLabelWithDigit d ++ x) = x := by
  have hlead : stripLeadingLabel (agentLabelWithDigit d ++ x) = x := by
    have hrest : leadLabelRest (agentLabelWithDigit d ++ x) =
        if d.isDigit = true then some (' ' :: x) else none := rfl
    rw [hd, if_pos rfl] at hrest
    unfold stripLeadingLabel
    rw [hrest]
    show List.dropWhile isPySpace (' ' :: x) = x
    have hsp : List.dropWhile isPySpace (' ' :: x) = List.dropWhile isPySpace x := by
      rw [List.dropWhile_cons]
      simp [isPySpace]
    rw [hsp]
    exact dropWhile_eq_self_of_pyStrip hx1
  rw [cleanStr, hlead, stripTrailingLabel_eq_self hx2, hx1]

theorem cleanStr_keeps_summarizer_label {x : Str} (hx1 : pyStrip x = x)
    (hx2 : hasNlLabel x = false) (hne : x ≠ []) :
    cleanStr (labelSummarizer ++ x) = labelSummarizer ++ x := by
  have hlead : stripLeadingLabel (labelSummarizer ++ x) = labelSummarizer ++ x := by
    have hrest : leadLabelRest (labelSummarizer ++ x) = none := rfl
    unfold stripLeadingLabel
    rw [hrest]
  have hnl : hasNlLabel (labelSummarizer ++ x) = false := by
    by_contra habs
    rw [Bool.not_eq_false] at habs
    rcases hasNlLabel_append_cases habs with h | h
    · exact absurd h (by decide)
    · rw [hx2] at h
      exact Bool.noConfusion h
  have hpy : pyStrip (labelSummarizer ++ x) = labelSummarizer ++ x := by
    apply pyStrip_eq_self
    · exact dropWhile_append_eq_self (by simp [labelSummarizer]) (by decide)
    · rw [List.reverse_append]
      apply dropWhile_append_eq_self
      · rw [ne_eq, List.reverse_eq_nil_iff]
        exact hne
      · exact dropWhile_reverse_eq_self_of_pyStrip hx1
  rw [cleanStr, hlead, stripTrailingLabel_eq_self hnl, hpy]

theorem cleanStr_idem_of_no_label {x : Str}
    (h : startsWithAgentLabel (cleanStr x) = false) :
    cleanStr (cleanStr x) = cleanStr x := by
  conv_lhs => rw [cleanStr]
  rw [stripLeadingLabel_eq_self h, stripTrailingLabel_eq_self (hasNlLabel_cleanStr x)]
  rw [show cleanStr x = pyStrip (stripTrailingLabel (stripLeadingLabel x)) from rfl]
  exact pyStrip_idem _

theorem hasSub_of_isPrefixOf {l pat : Str} (h : pat.isPrefixOf l = true) :
    hasSub l pat = true := by
  cases l with
  | nil =>
    have hpre := List.isPrefixOf_iff_prefix.mp h
    have hp : pat = [] := List.prefix_nil.mp hpre
    simp [hasSub, hp]
  | cons c rest =>
    unfold hasSub
    rw [h, Bool.true_or]

theorem hasSub_tag1_labelA1 (x : Str) : hasSub (labelAgent1 ++ x) tagAgent1 = true := by
  apply hasSub_of_isPrefixOf
  have h : labelAgent1 ++ x = tagAgent1 ++ ([':', ' '] ++ x) := by
    simp [labelAgent1, tagAgent1]
  rw [h]
  exact isPrefixOf_append_self _ _

theorem hasSub_tag2_labelA2 (x : Str) : hasSub (labelAgent2 ++ x) tagAgent2 = true := by
  apply hasSub_of_isPrefixOf
  have h : labelAgent2 ++ x = tagAgent2 ++ ([':', ' '] ++ x) := by
    simp [labelAgent2, tagAgent2]
  rw [h]
  exact isPrefixOf_append_self _ _

theorem agent_1_node_fields (s : ConvState) (r : RawContent) :
    (agent_1_node s r).turn_count = s.turn_count + 1 ∧
    (agent_1_node s r).max_turns = s.max_turns ∧
    (agent_1_node s r).summary_interval = s.summary_interval ∧
    (agent_1_node s r).messages = s.messages ++
      [⟨Role.assistant, labelAgent1 ++
        (if clean_response_content r = [] then fallbackAgent1
         else clean_response_content r)⟩] :=
  ⟨rfl, rfl, rfl, rfl⟩

theorem agent_2_node_fields (s : ConvState) (r : RawContent) :
    (agent_2_node s r).turn_count = s.turn_count + 1 ∧
    (agent_2_node s r).max_turns = s.max_turns ∧
    (agent_2_node s r).summary_interval = s.summary_interval ∧
    (agent_2_node s r).messages = s.messages ++
      [⟨Role.assistant, labelAgent2 ++
        (if clean_response_content r = [] then fallbackAgent2
         else clean_response_content r)⟩] :=
  ⟨rfl, rfl, rfl, rfl⟩

theorem summarizer_node_fields (s : ConvState) (r : RawContent) :
    (summarizer_node s r).turn_count = s.turn_count ∧
    (summarizer_node s r).max_turns = s.max_turns ∧
    (summarizer_node s r).summary_interval = s.summary_interval ∧
    (summarizer_node s r).messages = s.messages ++
      [⟨Role.assistant, labelSummarizer ++
        (if clean_response_content r = [] then fallbackSummarizer
         else clean_response_content r)⟩] :=
  ⟨rfl, rfl, rfl, rfl⟩

theorem stepNode_agent1 (s : ConvState) (r : RawContent) :
    stepNode GNode.agent1 s r =
      (if s.max_turns ≤ s.turn_count + 1 then GNode.done
       else if 0 < s.turn_count + 1 ∧ (s.turn_count + 1) % s.summary_interval = 0 then
         GNode.summarizer
       else GNode.agent2,
       agent_1_node s r) := by
  show (if route_after_agent (agent_1_node s r) = "summarize" then GNode.summarizer
        else if route_after_agent (agent_1_node s r) = "end" then GNode.done
        else GNode.agent2, agent_1_node s r) = _
  have hr : route_after_agent (agent_1_node s r) =
      if s.max_turns ≤ s.turn_count + 1 then "end"
      else if 0 < s.turn_count + 1 ∧ (s.turn_count + 1) % s.summary_interval = 0 then
        "summarize"
      else "continue" := rfl
  rw [hr]
  by_cases hM : s.max_turns ≤ s.turn_count + 1
  · rw [if_pos hM, if_pos hM, if_neg (by decide), if_pos rfl]
  · rw [if_neg hM, if_neg hM]
    by_cases hK : 0 < s.turn_count + 1 ∧ (s.turn_count + 1) % s.summary_interval = 0
    · rw [if_pos hK, if_pos hK, if_pos rfl]
    · rw [if_neg hK, if_neg hK, if_neg (by decide), if_neg (by decide)]

theorem stepNode_agent2 (s : ConvState) (r : RawContent) :
    stepNode GNode.agent2 s r =
      (if s.max_turns ≤ s.turn_count + 1 then GNode.done
       else if 0 < s.turn_count + 1 ∧ (s.turn_count + 1) % s.summary_interval = 0 then
         GNode.summarizer
       else GNode.agent1,
       agent_2_node s r) := by
  show (if route_after_agent (agent_2_node s r) = "summarize" then GNode.summarizer
        else if route_after_agent (agent_2_node s r) = "end" then GNode.done
        else GNode.agent1, agent_2_node s r) = _
  have hr : route_after_agent (agent_2_node s r) =
      if s.max_turns ≤ s.turn_count + 1 then "end"
      else if 0 < s.turn_count + 1 ∧ (s.turn_count + 1) % s.summary_interval = 0 then
        "summarize"
      else "continue" := rfl
  rw [hr]
  by_cases hM : s.max_turns ≤ s.turn_count + 1
  · rw [if_pos hM, if_pos hM, if_neg (by decide), if_pos rfl]
  · rw [if_neg hM, if_neg hM]
    by_cases hK : 0 < s.turn_count + 1 ∧ (s.turn_count + 1) % s.summary_interval = 0
    · rw [if_pos hK, if_pos hK, if_pos rfl]
    · rw [if_neg hK, if_neg hK, if_neg (by decide), if_neg (by decide)]

theorem stepNode_summarizer (s : ConvState) (r : RawContent) :
    stepNode GNode.summarizer s r =
      (if s.max_turns ≤ s.turn_count then GNode.done else GNode.agent1,
       summarizer_node s r) := by
  show (if should_continue (summarizer_node s r) = "end" then GNode.done
        else GNode.agent1, summarizer_node s r) = _
  have hr : should_continue (summarizer_node s r) =
      if s.max_turns ≤ s.turn_count then "end" else "continue" := rfl
  rw [hr]
  by_cases hM : s.max_turns ≤ s.turn_count
  · rw [if_pos hM, if_pos rfl, if_pos hM]
  · rw [if_neg hM, if_neg (by decide), if_neg hM]

/-- Placement invariant for Summarizer entries: every Summarizer entry of
the transcript sits immediately after a participant entry, and the number
of participant turns before it is a positive multiple of the summary
interval strictly below max_turns. -/
def summPlacedOK (K M : Nat) (ms : List Msg) : Prop :=
  ∀ u m v, ms = u ++ m :: v → isSummarizerMsg m = true →
    (0 < pcount u ∧ pcount u < M ∧ pcount u % K = 0 ∧
     ∃ u2 m2, u = u2 ++ [m2] ∧ isParticipantMsg m2 = true)

theorem summPlacedOK_nil (K M : Nat) : summPlacedOK K M [] := by
  intro u m v h
  exact absurd h (by simp)

theorem append_singleton_eq_cases {α : Type} {ms : List α} {p : α} {u v : List α} {m : α}
    (h : ms ++ [p] = u ++ m :: v) :
    (u = ms ∧ m = p ∧ v = []) ∨ ∃ v2, v = v2 ++ [p] ∧ ms = u ++ m :: v2 := by
  rcases List.eq_nil_or_concat v with hv | ⟨v2, x, hv⟩
  · subst hv
    obtain ⟨hms, hpm⟩ := List.append_inj' h (by simp)
    simp only [List.cons.injEq, and_true] at hpm
    exact Or.inl ⟨hms.symm, hpm.symm, rfl⟩
  · rw [List.concat_eq_append] at hv
    subst hv
    have h2 : ms ++ [p] = (u ++ m :: v2) ++ [x] := by
      rw [h]
      simp [List.append_assoc]
    obtain ⟨hms, hx⟩ := List.append_inj' h2 (by simp)
    simp only [List.cons.injEq, and_true] at hx
    exact Or.inr ⟨v2, by rw [hx], hms⟩

theorem summPlacedOK_append_nonsumm {K M : Nat} {ms : List Msg}
    (h : summPlacedOK K M ms) {p : Msg} (hp : isSummarizerMsg p = false) :
    summPlacedOK K M (ms ++ [p]) := by
  intro u m v hsplit hm
  rcases append_singleton_eq_cases hsplit with ⟨hu, hmp, hv⟩ | ⟨v2, hv, hms⟩
  · rw [hmp] at hm
    rw [hm] at hp
    exact Bool.noConfusion hp
  · exact h u m v2 hms hm

theorem summPlacedOK_append_summ {K M : Nat} {ms : List Msg}
    (h : summPlacedOK K M ms) (p : Msg)
    (h1 : 0 < pcount ms) (h2 : pcount ms < M) (h3 : pcount ms % K = 0)
    (h4 : ∃ u2 m2, ms = u2 ++ [m2] ∧ isParticipantMsg m2 = true) :
    summPlacedOK K M (ms ++ [p]) := by
  intro u m v hsplit hm
  rcases append_singleton_eq_cases hsplit with ⟨hu, hmp, hv⟩ | ⟨v2, hv, hms⟩
  · subst hu
    exact ⟨h1, h2, h3, h4⟩
  · exact h u m v2 hms hm

/-- Invariant attached to each graph node in a reachable configuration:
participant nodes run only while turn_count is below max_turns, the
summarizer runs only right after a participant turn whose count is a
positive multiple of the interval, and END is entered exactly at
max_turns. -/
def nodeOK : GNode → ConvState → Prop
  | GNode.done, s => s.turn_count = s.max_turns
  | GNode.agent1, s => s.turn_count < s.max_turns
  | GNode.agent2, s => s.turn_count < s.max_turns
  | GNode.summarizer, s =>
    s.turn_count < s.max_turns ∧ 0 < s.turn_count ∧
    s.turn_count % s.summary_interval = 0 ∧
    ∃ ms m, s.messages = ms ++ [m] ∧ isParticipantMsg m = true

/-- Termination measure of a configuration: strictly decreases along every
superstep of the graph. -/
def configMeasure : GNode → ConvState → Nat
  | GNode.done, _ => 0
  | GNode.summarizer, s => 2 * (s.max_turns - s.turn_count) + 1
  | GNode.agent1, s => 2 * (s.max_turns - s.turn_count)
  | GNode.agent2, s => 2 * (s.max_turns - s.turn_count)

/-- One when the node is the summarizer (whose own pending entry is not yet
in the transcript), zero otherwise. -/
def summHere : GNode → Nat
  | GNode.agent1 => 0
  | GNode.agent2 => 0
  | GNode.summarizer => 1
  | GNode.done => 0

theorem runAux_done (o : Nat → RawContent) (fuel : Nat) (s : ConvState) :
    runAux o fuel GNode.done s = (GNode.done, s) := by
  cases fuel <;> rfl

theorem runAux_master_done (o : Nat → RawContent) (fuel : Nat) (s : ConvState)
    (hok : s.turn_count = s.max_turns)
    (hpc : pcount s.messages = s.turn_count)
    (hplace : summPlacedOK s.summary_interval s.max_turns s.messages) :
    (runAux o fuel GNode.done s).1 = GNode.done ∧
    (runAux o fuel GNode.done s).2.turn_count = s.max_turns ∧
    (runAux o fuel GNode.done s).2.max_turns = s.max_turns ∧
    (runAux o fuel GNode.done s).2.summary_interval = s.summary_interval ∧
    pcount (runAux o fuel GNode.done s).2.messages = s.max_turns ∧
    scount (runAux o fuel GNode.done s).2.messages =
      scount s.messages +
        ((s.max_turns - 1) / s.summary_interval - s.turn_count / s.summary_interval) +
        summHere GNode.done ∧
    summPlacedOK s.summary_interval s.max_turns (runAux o fuel GNode.done s).2.messages := by
  rw [runAux_done]
  refine ⟨rfl, hok, rfl, rfl, by rw [show (GNode.done, s).2 = s from rfl, hpc, hok], ?_, hplace⟩
  have hab : (s.max_turns - 1) / s.summary_interval ≤
      s.max_turns / s.summary_interval := Nat.div_le_div_right (Nat.sub_le _ _)
  show scount s.messages = _
  rw [hok, Nat.sub_eq_zero_of_le hab]
  rfl

theorem runAux_master (o : Nat → RawContent) :
    ∀ fuel n s, nodeOK n s → 0 < s.summary_interval →
      pcount s.messages = s.turn_count →
      summPlacedOK s.summary_interval s.max_turns s.messages →
      configMeasure n s ≤ fuel →
      ((runAux o fuel n s).1 = GNode.done ∧
       (runAux o fuel n s).2.turn_count = s.max_turns ∧
       (runAux o fuel n s).2.max_turns = s.max_turns ∧
       (runAux o fuel n s).2.summary_interval = s.summary_interval ∧
       pcount (runAux o fuel n s).2.messages = s.max_turns ∧
       scount (runAux o fuel n s).2.messages =
         scount s.messages +
           ((s.max_turns - 1) / s.summary_interval -
             s.turn_count / s.summary_interval) + summHere n ∧
       summPlacedOK s.summary_interval s.max_turns (runAux o fuel n s).2.messages) := by
  intro fuel
  induction fuel with
  | zero =>
    intro n s hok hK hpc hplace hfuel
    cases n with
    | done => exact runAux_master_done o 0 s hok hpc hplace
    | agent1 =>
      exfalso
      have h1 : s.turn_count < s.max_turns := hok
      have h2 : 2 * (s.max_turns - s.turn_count) ≤ 0 := hfuel
      omega
    | agent2 =>
      exfalso
      have h1 : s.turn_count < s.max_turns := hok
      have h2 : 2 * (s.max_turns - s.turn_count) ≤ 0 := hfuel
      omega
    | summarizer =>
      exfalso
      have h1 : s.turn_count < s.max_turns := hok.1
      have h2 : 2 * (s.max_turns - s.turn_count) + 1 ≤ 0 := hfuel
      omega
  | succ fuel ih =>
    intro n s hok hK hpc hplace hfuel
    cases n with
    | done => exact runAux_master_done o (fuel + 1) s hok hpc hplace
    | agent1 =>
      have hM0 : s.turn_count < s.max_turns := hok
      have hfuel0 : 2 * (s.max_turns - s.turn_count) ≤ fuel + 1 := hfuel
      have hstep : runAux o (fuel + 1) GNode.agent1 s =
          runAux o fuel
            (if s.max_turns ≤ s.turn_count + 1 then GNode.done
             else if 0 < s.turn_count + 1 ∧
                 (s.turn_count + 1) % s.summary_interval = 0 then GNode.summarizer
             else GNode.agent2)
            (agent_1_node s (o s.messages.length)) := by
        rw [show runAux o (fuel + 1) GNode.agent1 s =
            runAux o fuel (stepNode GNode.agent1 s (o s.messages.length)).1
              (stepNode GNode.agent1 s (o s.messages.length)).2 from rfl,
          stepNode_agent1]
      rw [hstep]
      obtain ⟨ht1, ht2, ht3, ht4⟩ := agent_1_node_fields s (o s.messages.length)
      have hpart := isParticipantMsg_a1
        (if clean_response_content (o s.messages.length) = [] then fallbackAgent1
         else clean_response_content (o s.messages.length))
      have hsumm := isSummarizerMsg_a1
        (if clean_response_content (o s.messages.length) = [] then fallbackAgent1
         else clean_response_content (o s.messages.length))
      have hpc1 : pcount (agent_1_node s (o s.messages.length)).messages =
          s.turn_count + 1 := by
        rw [ht4, pcount_append, if_pos hpart, hpc]
      have hsc1 : scount (agent_1_node s (o s.messages.length)).messages =
          scount s.messages := by
        rw [ht4, scount_append, hsumm]
        simp
      have hplace1 : summPlacedOK s.summary_interval s.max_turns
          (agent_1_node s (o s.messages.length)).messages := by
        rw [ht4]
        exact summPlacedOK_append_nonsumm hplace hsumm
      by_cases hM : s.max_turns ≤ s.turn_count + 1
      · rw [if_pos hM]
        have IH := ih GNode.done (agent_1_node s (o s.messages.length))
          (show (agent_1_node s (o s.messages.length)).turn_count =
              (agent_1_node s (o s.messages.length)).max_turns by
            rw [ht1, ht2]; omega)
          (by rw [ht3]; exact hK)
          (by rw [ht1]; exact hpc1)
          (by rw [ht2, ht3]; exact hplace1)
          (by
            have hcm : configMeasure GNode.done
                (agent_1_node s (o s.messages.length)) = 0 := rfl
            omega)
        obtain ⟨g1, g2, g3, g4, g5, g6, g7⟩ := IH
        rw [ht2] at g2 g3 g5
        rw [ht3] at g4
        rw [ht2, ht3] at g7
        refine ⟨g1, g2, g3, g4, g5, ?_, g7⟩
        rw [g6, hsc1, ht1, ht2, ht3]
        have hab : (s.max_turns - 1) / s.summary_interval ≤
            s.max_turns / s.summary_interval := Nat.div_le_div_right (Nat.sub_le _ _)
        have htc : s.turn_count + 1 = s.max_turns := by omega
        have htc2 : s.turn_count = s.max_turns - 1 := by omega
        rw [htc, htc2, Nat.sub_eq_zero_of_le hab, Nat.sub_self]
        rfl
      · rw [if_neg hM]
        by_cases hKc : 0 < s.turn_count + 1 ∧
            (s.turn_count + 1) % s.summary_interval = 0
        · rw [if_pos hKc]
          have hdvd : s.summary_interval ∣ (s.turn_count + 1) :=
            Nat.dvd_of_mod_eq_zero hKc.2
          have IH := ih GNode.summarizer (agent_1_node s (o s.messages.length))
            (show nodeOK GNode.summarizer (agent_1_node s (o s.messages.length)) from
              ⟨by rw [ht1, ht2]; omega, by rw [ht1]; omega,
               by rw [ht1, ht3]; exact hKc.2,
               ⟨s.messages, _, ht4, hpart⟩⟩)
            (by rw [ht3]; exact hK)
            (by rw [ht1]; exact hpc1)
            (by rw [ht2, ht3]; exact hplace1)
            (by
              have hcm : configMeasure GNode.summarizer
                  (agent_1_node s (o s.messages.length)) =
                  2 * (s.max_turns - (s.turn_count + 1)) + 1 := by
                show 2 * ((agent_1_node s (o s.messages.length)).max_turns -
                  (agent_1_node s (o s.messages.length)).turn_count) + 1 = _
                rw [ht1, ht2]
              rw [hcm]
              omega)
          obtain ⟨g1, g2, g3, g4, g5, g6, g7⟩ := IH
          rw [ht2] at g2 g3 g5
          rw [ht3] at g4
          rw [ht2, ht3] at g7
          refine ⟨g1, g2, g3, g4, g5, ?_, g7⟩
          rw [g6, hsc1, ht1, ht2, ht3]
          have hsucc : (s.turn_count + 1) / s.summary_interval =
              s.turn_count / s.summary_interval + 1 := by
            rw [Nat.succ_div, if_pos hdvd]
          have hle2 : (s.turn_count + 1) / s.summary_interval ≤
              (s.max_turns - 1) / s.summary_interval :=
            Nat.div_le_div_right (by omega)
          rw [hsucc] at hle2
          rw [hsucc]
          show scount s.messages +
              ((s.max_turns - 1) / s.summary_interval -
                (s.turn_count / s.summary_interval + 1)) + 1 =
            scount s.messages +
              ((s.max_turns - 1) / s.summary_interval -
                s.turn_count / s.summary_interval) + 0
          revert hle2
          generalize (s.max_turns - 1) / s.summary_interval = A
          generalize s.turn_count / s.summary_interval = B
          intro hle2
          omega
        · rw [if_neg hKc]
          have hndvd : ¬ s.summary_interval ∣ (s.turn_count + 1) := by
            intro hd
            exact hKc ⟨Nat.succ_pos _, Nat.eq_zero_of_dvd_of_lt hd |> fun _ => by
              exact (Nat.mod_eq_zero_of_dvd hd)⟩
          have IH := ih GNode.agent2 (agent_1_node s (o s.messages.length))
            (show (agent_1_node s (o s.messages.length)).turn_count <
                (agent_1_node s (o s.messages.length)).max_turns by
              rw [ht1, ht2]; omega)
            (by rw [ht3]; exact hK)
            (by rw [ht1]; exact hpc1)
            (by rw [ht2, ht3]; exact hplace1)
            (by
              have hcm : configMeasure GNode.agent2
                  (agent_1_node s (o s.messages.length)) =
                  2 * (s.max_turns - (s.turn_count + 1)) := by
                show 2 * ((agent_1_node s (o s.messages.length)).max_turns -
                  (agent_1_node s (o s.messages.length)).turn_count) = _
                rw [ht1, ht2]
              rw [hcm]
              omega)
          obtain ⟨g1, g2, g3, g4, g5, g6, g7⟩ := IH
          rw [ht2] at g2 g3 g5
          rw [ht3] at g4
          rw [ht2, ht3] at g7
          refine ⟨g1, g2, g3, g4, g5, ?_, g7⟩
          rw [g6, hsc1, ht1, ht2, ht3]
          have hsucc2 : (s.turn_count + 1) / s.summary_interval =
              s.turn_count / s.summary_interval := by
            rw [Nat.succ_div, if_neg hndvd]
            rfl
          rw [hsucc2]
          rfl
    | agent2 =>
      have hM0 : s.turn_count < s.max_turns := hok
      have hfuel0 : 2 * (s.max_turns - s.turn_count) ≤ fuel + 1 := hfuel
      have hstep : runAux o (fuel + 1) GNode.agent2 s =
          runAux o fuel
            (if s.max_turns ≤ s.turn_count + 1 then GNode.done
             else if 0 < s.turn_count + 1 ∧
                 (s.turn_count + 1) % s.summary_interval = 0 then GNode.summarizer
             else GNode.agent1)
            (agent_2_node s (o s.messages.length)) := by
        rw [show runAux o (fuel + 1) GNode.agent2 s =
            runAux o fuel (stepNode GNode.agent2 s (o s.messages.length)).1
              (stepNode GNode.agent2 s (o s.messages.length)).2 from rfl,
          stepNode_agent2]
      rw [hstep]
      obtain ⟨ht1, ht2, ht3, ht4⟩ := agent_2_node_fields s (o s.messages.length)
      have hpart := isParticipantMsg_a2
        (if clean_response_content (o s.messages.length) = [] then fallbackAgent2
         else clean_response_content (o s.messages.length))
      have hsumm := isSummarizerMsg_a2
        (if clean_response_content (o s.messages.length) = [] then fallbackAgent2
         else clean_response_content (o s.messages.length))
      have hpc1 : pcount (agent_2_node s (o s.messages.length)).messages =
          s.turn_count + 1 := by
        rw [ht4, pcount_append, if_pos hpart, hpc]
      have hsc1 : scount (agent_2_node s (o s.messages.length)).messages =
          scount s.messages := by
        rw [ht4, scount_append, hsumm]
        simp
      have hplace1 : summPlacedOK s.summary_interval s.max_turns
          (agent_2_node s (o s.messages.length)).messages := by
        rw [ht4]
        exact summPlacedOK_append_nonsumm hplace hsumm
      by_cases hM : s.max_turns ≤ s.turn_count + 1
      · rw [if_pos hM]
        have IH := ih GNode.done (agent_2_node s (o s.messages.length))
          (show (agent_2_node s (o s.messages.length)).turn_count =
              (agent_2_node s (o s.messages.length)).max_turns by
            rw [ht1, ht2]; omega)
          (by rw [ht3]; exact hK)
          (by rw [ht1]; exact hpc1)
          (by rw [ht2, ht3]; exact hplace1)
          (by
            have hcm : configMeasure GNode.done
                (agent_2_node s (o s.messages.length)) = 0 := rfl
            omega)
        obtain ⟨g1, g2, g3, g4, g5, g6, g7⟩ := IH
        rw [ht2] at g2 g3 g5
        rw [ht3] at g4
        rw [ht2, ht3] at g7
        refine ⟨g1, g2, g3, g4, g5, ?_, g7⟩
        rw [g6, hsc1, ht1, ht2, ht3]
        have hab : (s.max_turns - 1) / s.summary_interval ≤
            s.max_turns / s.summary_interval := Nat.div_le_div_right (Nat.sub_le _ _)
        have htc : s.turn_count + 1 = s.max_turns := by omega
        have htc2 : s.turn_count = s.max_turns - 1 := by omega
        rw [htc, htc2, Nat.sub_eq_zero_of_le hab, Nat.sub_self]
        rfl
      · rw [if_neg hM]
        by_cases hKc : 0 < s.turn_count + 1 ∧
            (s.turn_count + 1) % s.summary_interval = 0
        · rw [if_pos hKc]
          have hdvd : s.summary_interval ∣ (s.turn_count + 1) :=
            Nat.dvd_of_mod_eq_zero hKc.2
          have IH := ih GNode.summarizer (agent_2_node s (o s.messages.length))
            (show nodeOK GNode.summarizer (agent_2_node s (o s.messages.length)) from
              ⟨by rw [ht1, ht2]; omega, by rw [ht1]; omega,
               by rw [ht1, ht3]; exact hKc.2,
               ⟨s.messages, _, ht4, hpart⟩⟩)
            (by rw [ht3]; exact hK)
            (by rw [ht1]; exact hpc1)
            (by rw [ht2, ht3]; exact hplace1)
            (by
              have hcm : configMeasure GNode.summarizer
                  (agent_2_node s (o s.messages.length)) =
                  2 * (s.max_turns - (s.turn_count + 1)) + 1 := by
                show 2 * ((agent_2_node s (o s.messages.length)).max_turns -
                  (agent_2_node s (o s.messages.length)).turn_count) + 1 = _
                rw [ht1, ht2]
              rw [hcm]
              omega)
          obtain ⟨g1, g2, g3, g4, g5, g6, g7⟩ := IH
          rw [ht2] at g2 g3 g5
          rw [ht3] at g4
          rw [ht2, ht3] at g7
          refine ⟨g1, g2, g3, g4, g5, ?_, g7⟩
          rw [g6, hsc1, ht1, ht2, ht3]
          have hsucc : (s.turn_count + 1) / s.summary_interval =
              s.turn_count / s.summary_interval + 1 := by
            rw [Nat.succ_div, if_pos hdvd]
          have hle2 : (s.turn_count + 1) / s.summary_interval ≤
              (s.max_turns - 1) / s.summary_interval :=
            Nat.div_le_div_right (by omega)
          rw [hsucc] at hle2
          rw [hsucc]
          show scount s.messages +
              ((s.max_turns - 1) / s.summary_interval -
                (s.turn_count / s.summary_interval + 1)) + 1 =
            scount s.messages +
              ((s.max_turns - 1) / s.summary_interval -
                s.turn_count / s.summary_interval) + 0
          revert hle2
          generalize (s.max_turns - 1) / s.summary_interval = A
          generalize s.turn_count / s.summary_interval = B
          intro hle2
          omega
        · rw [if_neg hKc]
          have hndvd : ¬ s.summary_interval ∣ (s.turn_count + 1) := by
            intro hd
            exact hKc ⟨Nat.succ_pos _, Nat.mod_eq_zero_of_dvd hd⟩
          have IH := ih GNode.agent1 (agent_2_node s (o s.messages.length))
            (show (agent_2_node s (o s.messages.length)).turn_count <
                (agent_2_node s (o s.messages.length)).max_turns by
              rw [ht1, ht2]; omega)
            (by rw [ht3]; exact hK)
            (by rw [ht1]; exact hpc1)
            (by rw [ht2, ht3]; exact hplace1)
            (by
              have hcm : configMeasure GNode.agent1
                  (agent_2_node s (o s.messages.length)) =
                  2 * (s.max_turns - (s.turn_count + 1)) := by
                show 2 * ((agent_2_node s (o s.messages.length)).max_turns -
                  (agent_2_node s (o s.messages.length)).turn_count) = _
                rw [ht1, ht2]
              rw [hcm]
              omega)
          obtain ⟨g1, g2, g3, g4, g5, g6, g7⟩ := IH
          rw [ht2] at g2 g3 g5
          rw [ht3] at g4
          rw [ht2, ht3] at g7
          refine ⟨g1, g2, g3, g4, g5, ?_, g7⟩
          rw [g6, hsc1, ht1, ht2, ht3]
          have hsucc2 : (s.turn_count + 1) / s.summary_interval =
              s.turn_count / s.summary_interval := by
            rw [Nat.succ_div, if_neg hndvd]
            rfl
          rw [hsucc2]
          rfl
    | summarizer =>
      have hlt : s.turn_count < s.max_turns := hok.1
      have hfuel0 : 2 * (s.max_turns - s.turn_count) + 1 ≤ fuel + 1 := hfuel
      have hstep : runAux o (fuel + 1) GNode.summarizer s =
          runAux o fuel
            (if s.max_turns ≤ s.turn_count then GNode.done else GNode.agent1)
            (summarizer_node s (o s.messages.length)) := by
        rw [show runAux o (fuel + 1) GNode.summarizer s =
            runAux o fuel (stepNode GNode.summarizer s (o s.messages.length)).1
              (stepNode GNode.summarizer s (o s.messages.length)).2 from rfl,
          stepNode_summarizer]
      rw [hstep, if_neg (by omega : ¬ s.max_turns ≤ s.turn_count)]
      obtain ⟨ht1, ht2, ht3, ht4⟩ := summarizer_node_fields s (o s.messages.length)
      have hpartF := isParticipantMsg_sum
        (if clean_response_content (o s.messages.length) = [] then fallbackSummarizer
         else clean_response_content (o s.messages.length))
      have hsummT := isSummarizerMsg_sum
        (if clean_response_content (o s.messages.length) = [] then fallbackSummarizer
         else clean_response_content (o s.messages.length))
      have hpc1 : pcount (summarizer_node s (o s.messages.length)).messages =
          s.turn_count := by
        rw [ht4, pcount_append, hpartF, hpc]
        simp
      have hsc1 : scount (summarizer_node s (o s.messages.length)).messages =
          scount s.messages + 1 := by
        rw [ht4, scount_append, hsummT]
        simp
      have hplace1 : summPlacedOK s.summary_interval s.max_turns
          (summarizer_node s (o s.messages.length)).messages := by
        rw [ht4]
        exact summPlacedOK_append_summ hplace _
          (by rw [hpc]; exact hok.2.1) (by rw [hpc]; exact hlt)
          (by rw [hpc]; exact hok.2.2.1) hok.2.2.2
      have IH := ih GNode.agent1 (summarizer_node s (o s.messages.length))
        (show (summarizer_node s (o s.messages.length)).turn_count <
            (summarizer_node s (o s.messages.length)).max_turns by
          rw [ht1, ht2]; omega)
        (by rw [ht3]; exact hK)
        (by rw [ht1]; exact hpc1)
        (by rw [ht2, ht3]; exact hplace1)
        (by
          have hcm : configMeasure GNode.agent1
              (summarizer_node s (o s.messages.length)) =
              2 * (s.max_turns - s.turn_count) := by
            show 2 * ((summarizer_node s (o s.messages.length)).max_turns -
              (summarizer_node s (o s.messages.length)).turn_count) = _
            rw [ht1, ht2]
          rw [hcm]
          omega)
      obtain ⟨g1, g2, g3, g4, g5, g6, g7⟩ := IH
      rw [ht2] at g2 g3 g5
      rw [ht3] at g4
      rw [ht2, ht3] at g7
      refine ⟨g1, g2, g3, g4, g5, ?_, g7⟩
      rw [g6, hsc1, ht1, ht2, ht3]
      show scount s.messages + 1 +
          ((s.max_turns - 1) / s.summary_interval -
            s.turn_count / s.summary_interval) + 0 =
        scount s.messages +
          ((s.max_turns - 1) / s.summary_interval -
            s.turn_count / s.summary_interval) + 1
      generalize (s.max_turns - 1) / s.summary_interval -
        s.turn_count / s.summary_interval = D
      omega

theorem runConversation_spec (o : Nat → RawContent) (topic : Str) (M K : Nat)
    (hM : 0 < M) (hK : 0 < K) :
    (runConversation o topic M K).1 = GNode.done ∧
    (runConversation o topic M K).2.turn_count = M ∧
    pcount (runConversation o topic M K).2.messages = M ∧
    scount (runConversation o topic M K).2.messages = (M - 1) / K ∧
    summPlacedOK K M (runConversation o topic M K).2.messages := by
  have h := runAux_master o (2 * M + 2) GNode.agent1 (initState topic M K)
    hM hK rfl (summPlacedOK_nil K M)
    (show 2 * (M - 0) ≤ 2 * M + 2 by omega)
  obtain ⟨g1, g2, g3, g4, g5, g6, g7⟩ := h
  refine ⟨g1, g2, g5, ?_, g7⟩
  rw [show scount (runConversation o topic M K).2.messages =
      scount (runAux o (2 * M + 2) GNode.agent1 (initState topic M K)).2.messages from rfl,
    g6]
  show 0 + ((M - 1) / K - 0 / K) + 0 = (M - 1) / K
  simp

theorem pcount_turn_count_runAux (o : Nat → RawContent) :
    ∀ fuel n s, pcount s.messages = s.turn_count →
      pcount (runAux o fuel n s).2.messages = (runAux o fuel n s).2.turn_count := by
  intro fuel
  induction fuel with
  | zero =>
    intro n s h
    exact h
  | succ fuel ih =>
    intro n s h
    cases n with
    | done =>
      rw [runAux_done]
      exact h
    | agent1 =>
      rw [show runAux o (fuel + 1) GNode.agent1 s =
          runAux o fuel (stepNode GNode.agent1 s (o s.messages.length)).1
            (stepNode GNode.agent1 s (o s.messages.length)).2 from rfl]
      apply ih
      rw [show (stepNode GNode.agent1 s (o s.messages.length)).2 =
          agent_1_node s (o s.messages.length) from by rw [stepNode_agent1]]
      obtain ⟨ht1, _, _, ht4⟩ := agent_1_node_fields s (o s.messages.length)
      rw [ht4, ht1, pcount_append, if_pos (isParticipantMsg_a1 _), h]
    | agent2 =>
      rw [show runAux o (fuel + 1) GNode.agent2 s =
          runAux o fuel (stepNode GNode.agent2 s (o s.messages.length)).1
            (stepNode GNode.agent2 s (o s.messages.length)).2 from rfl]
      apply ih
      rw [show (stepNode GNode.agent2 s (o s.messages.length)).2 =
          agent_2_node s (o s.messages.length) from by rw [stepNode_agent2]]
      obtain ⟨ht1, _, _, ht4⟩ := agent_2_node_fields s (o s.messages.length)
      rw [ht4, ht1, pcount_append, if_pos (isParticipantMsg_a2 _), h]
    | summarizer =>
      rw [show runAux o (fuel + 1) GNode.summarizer s =
          runAux o fuel (stepNode GNode.summarizer s (o s.messages.length)).1
            (stepNode GNode.summarizer s (o s.messages.length)).2 from rfl]
      apply ih
      rw [show (stepNode GNode.summarizer s (o s.messages.length)).2 =
          summarizer_node s (o s.messages.length) from by rw [stepNode_summarizer]]
      obtain ⟨ht1, _, _, ht4⟩ := summarizer_node_fields s (o s.messages.length)
      rw [ht4, ht1, pcount_append, isParticipantMsg_sum, h]
      simp

/-- Constant oracle used to instantiate run-level theorems on concrete
conversations. -/
def constOracle : Nat → RawContent := fun _ => RawContent.str "hi".toList

/-- Transcript state holding one Agent 1 turn with body x followed by one
Agent 2 turn with body y, as used for the role-relabeling scenario. -/
def twoTurnState (x y : Str) : ConvState :=
  { messages := [⟨Role.assistant, labelAgent1 ++ x⟩, ⟨Role.assistant, labelAgent2 ++ y⟩]
    topic := []
    current_speaker := "agent_1"
    turn_count := 2
    max_turns := 8
    summary_interval := 4 }

/-- C1 (amended): for every oracle, topic, max_turns M > 0 and
summary_interval K > 0, the final transcript contains exactly
floor((M - 1) / K) Summarizer entries (the end-of-run check fires before
the summary check, so the multiple M itself never triggers a summary), each
sitting immediately after a participant turn whose post-increment count is
a positive multiple of K below M — never after turn 0 — and the run
performs exactly M participant turns. -/
theorem c1_summary_cadence (o : Nat → RawContent) (topic : Str) (M K : Nat)
    (hM : 0 < M) (hK : 0 < K) :
    scount (runConversation o topic M K).2.messages = (M - 1) / K ∧
    summPlacedOK K M (runConversation o topic M K).2.messages ∧
    pcount (runConversation o topic M K).2.messages = M :=
  ⟨(runConversation_spec o topic M K hM hK).2.2.2.1,
   (runConversation_spec o topic M K hM hK).2.2.2.2,
   (runConversation_spec o topic M K hM hK).2.2.1⟩

/-- C1 counterexample: with max_turns = 4 and summary_interval = 4 the
final transcript has 4 entries (A, B, A, B) and 0 Summarizer entries,
not the floor(4 / 4) = 1 Summarizer entries and 5 entries the claim
asserts. -/
theorem c1_counterexample :
    (runConversation constOracle [] 4 4).2.messages.length = 4 ∧
    scount (runConversation constOracle [] 4 4).2.messages = 0 ∧
    (4 : Nat) / 4 = 1 ∧
    (runConversation constOracle [] 4 4).2.messages.map
      (fun m => labelAgent1.isPrefixOf m.content) = [true, false, true, false] :=
  ⟨by decide, by decide, by decide, by decide⟩

/-- C1 witness: the amended count theorem instantiated at the scenario
max_turns = 4, summary_interval = 4. -/
theorem c1_summary_cadence_witness :
    (0 < 4 ∧ 0 < 4) ∧
    (scount (runConversation constOracle [] 4 4).2.messages = (4 - 1) / 4 ∧
     summPlacedOK 4 4 (runConversation constOracle [] 4 4).2.messages ∧
     pcount (runConversation constOracle [] 4 4).2.messages = 4) :=
  ⟨⟨by decide, by decide⟩, c1_summary_cadence constOracle [] 4 4 (by decide) (by decide)⟩

/-- C2 (confirmed): after a participant node runs (so on the
post-increment turn_count), the graph goes to END when turn_count has
reached max_turns, else to the summarizer when turn_count is a positive
multiple of summary_interval, else to the other participant; from the
summarizer (turn_count unchanged) the only transitions are END when
turn_count has reached max_turns and otherwise Agent 1. -/
theorem c2_routing (s : ConvState) (r : RawContent) :
    ((stepNode GNode.agent1 s r).1 =
      if s.max_turns ≤ s.turn_count + 1 then GNode.done
      else if 0 < s.turn_count + 1 ∧ (s.turn_count + 1) % s.summary_interval = 0 then
        GNode.summarizer
      else GNode.agent2) ∧
    ((stepNode GNode.agent2 s r).1 =
      if s.max_turns ≤ s.turn_count + 1 then GNode.done
      else if 0 < s.turn_count + 1 ∧ (s.turn_count + 1) % s.summary_interval = 0 then
        GNode.summarizer
      else GNode.agent1) ∧
    ((stepNode GNode.summarizer s r).1 =
      if s.max_turns ≤ s.turn_count then GNode.done else GNode.agent1) ∧
    (stepNode GNode.summarizer s r).2.turn_count = s.turn_count := by
  refine ⟨?_, ?_, ?_, rfl⟩
  · rw [stepNode_agent1]
  · rw [stepNode_agent2]
  · rw [stepNode_summarizer]

/-- C3 (confirmed): for every oracle, topic, max_turns M > 0 and
summary_interval K > 0, the run ends at END with turn_count exactly M and
exactly M participant turns in the transcript. -/
theorem c3_termination (o : Nat → RawContent) (topic : Str) (M K : Nat)
    (hM : 0 < M) (hK : 0 < K) :
    (runConversation o topic M K).1 = GNode.done ∧
    (runConversation o topic M K).2.turn_count = M ∧
    pcount (runConversation o topic M K).2.messages = M :=
  ⟨(runConversation_spec o topic M K hM hK).1,
   (runConversation_spec o topic M K hM hK).2.1,
   (runConversation_spec o topic M K hM hK).2.2.1⟩

/-- C3 witness: the scenario max_turns = 1, summary_interval = 4 — one
entry, produced by Agent 1, state END, no Summarizer entries. -/
theorem c3_termination_witness :
    (0 < 1 ∧ 0 < 4) ∧
    ((runConversation constOracle [] 1 4).1 = GNode.done ∧
     (runConversation constOracle [] 1 4).2.turn_count = 1 ∧
     pcount (runConversation constOracle [] 1 4).2.messages = 1) ∧
    (runConversation constOracle [] 1 4).2.messages.length = 1 ∧
    scount (runConversation constOracle [] 1 4).2.messages = 0 ∧
    (runConversation constOracle [] 1 4).2.messages.map
      (fun m => labelAgent1.isPrefixOf m.content) = [true] :=
  ⟨⟨by decide, by decide⟩,
   c3_termination constOracle [] 1 4 (by decide) (by decide),
   by decide, by decide, by decide⟩

/-- C4 (amended): only Participant B relabels roles participant-relatively;
on the transcript [A: x, B: y], Agent 2 gets A entries as user messages
and its own as assistant messages (Summarizer entries would be dropped),
while Agent 1 passes the stored transcript through unchanged, so for Agent
1 both entries keep the stored assistant role. -/
theorem c4_amended_relabeling (sys : Msg) (x y : Str)
    (hy : hasSub (labelAgent2 ++ y) tagAgent1 = false) :
    (agent_1_messages sys (twoTurnState x y)).map Msg.role =
      [sys.role, Role.assistant, Role.assistant] ∧
    (agent_2_messages sys (twoTurnState x y)).map Msg.role =
      [sys.role, Role.user, Role.assistant] := by
  constructor
  · rw [agent_1_messages, if_neg (by simp [twoTurnState])]
    simp [twoTurnState]
  · simp [agent_2_messages, twoTurnState, hy, hasSub_tag1_labelA1, hasSub_tag2_labelA2]

/-- C4 counterexample: on the transcript [A: x, B: y], the message history
built for Participant A presents the y entry with the assistant role, not
the user role the claim asserts. -/
theorem c4_counterexample :
    (agent_1_messages ⟨Role.system, []⟩ (twoTurnState ['x'] ['y']))[2]? =
      some ⟨Role.assistant, labelAgent2 ++ ['y']⟩ ∧
    Role.assistant ≠ Role.user :=
  ⟨by decide, by decide⟩

/-- C4 witness: the amended relabeling theorem at x = x, y = y. -/
theorem c4_amended_relabeling_witness :
    hasSub (labelAgent2 ++ ['y']) tagAgent1 = false ∧
    ((agent_1_messages ⟨Role.system, []⟩ (twoTurnState ['x'] ['y'])).map Msg.role =
      [Role.system, Role.assistant, Role.assistant] ∧
     (agent_2_messages ⟨Role.system, []⟩ (twoTurnState ['x'] ['y'])).map Msg.role =
      [Role.system, Role.user, Role.assistant]) :=
  ⟨by decide, c4_amended_relabeling ⟨Role.system, []⟩ ['x'] ['y'] (by decide)⟩

/-- C5 (amended): the Response Normalizer strips a leading participant
label (bracket Agent digit bracket colon, any digit) and discards
everything from the first newline-preceded participant label onward,
trimming surrounding whitespace; leading labels of the Summarizer (and
UserSeed) identities are not stripped. -/
theorem c5_amended_label_stripping :
    (∀ d x, d.isDigit = true → pyStrip x = x → hasNlLabel x = false →
      cleanStr (agentLabelWithDigit d ++ x) = x) ∧
    (∀ l : Str, ∃ suf, l = stripTrailingLabel l ++ suf ∧
      (suf = [] ∨ isNlLabelAt suf = true) ∧
      hasNlLabel (stripTrailingLabel l) = false) ∧
    (∀ x, pyStrip x = x → hasNlLabel x = false → x ≠ [] →
      cleanStr (labelSummarizer ++ x) = labelSummarizer ++ x) :=
  ⟨fun _ x hd h1 h2 => cleanStr_strips_leading_agent_label hd h1 h2,
   fun l => by
     obtain ⟨suf, h1, h2⟩ := stripTrailingLabel_decomp l
     exact ⟨suf, h1, h2, hasNlLabel_stripTrailingLabel l⟩,
   fun x h1 h2 h3 => cleanStr_keeps_summarizer_label h1 h2 h3⟩

/-- C5 counterexample: a leading Summarizer label survives normalization
unchanged, refuting stripping for every Identity value. -/
theorem c5_counterexample :
    cleanStr "[Summarizer]: hi".toList = "[Summarizer]: hi".toList ∧
    "[Summarizer]: hi".toList ≠ ("hi".toList : Str) :=
  ⟨by decide, by decide⟩

/-- C5 witness: the amended stripping theorem instantiated on concrete
strings. -/
theorem c5_amended_label_stripping_witness :
    cleanStr (agentLabelWithDigit '1' ++ "hi".toList) = "hi".toList ∧
    (∃ suf, "a\n[Agent 1]: b".toList =
      stripTrailingLabel "a\n[Agent 1]: b".toList ++ suf ∧
      (suf = [] ∨ isNlLabelAt suf = true) ∧
      hasNlLabel (stripTrailingLabel "a\n[Agent 1]: b".toList) = false) ∧
    cleanStr (labelSummarizer ++ "hi".toList) = labelSummarizer ++ "hi".toList :=
  ⟨c5_amended_label_stripping.1 '1' _ (by decide) (by decide) (by decide),
   c5_amended_label_stripping.2.1 _,
   c5_amended_label_stripping.2.2 _ (by decide) (by decide) (by decide)⟩

/-- C6 (amended): the Response Normalizer is idempotent on every input
whose normalized form does not itself begin with a participant label
(stripping can expose a second label, which a second pass would strip). -/
theorem c6_amended_idempotence (x : Str)
    (h : startsWithAgentLabel (cleanStr x) = false) :
    cleanStr (cleanStr x) = cleanStr x :=
  cleanStr_idem_of_no_label h

/-- C6 counterexample: one normalization pass of a doubly labeled string
exposes a new leading participant label, so a second pass changes the
string again. -/
theorem c6_counterexample :
    cleanStr (cleanStr "[Agent 1]: [Agent 2]: hi".toList) ≠
      cleanStr "[Agent 1]: [Agent 2]: hi".toList := by
  decide

/-- C6 witness: idempotence at a label-free input. -/
theorem c6_amended_idempotence_witness :
    startsWithAgentLabel (cleanStr "hello".toList) = false ∧
    cleanStr (cleanStr "hello".toList) = cleanStr "hello".toList :=
  ⟨by decide, c6_amended_idempotence _ (by decide)⟩

/-- C7 (confirmed): each participant node increments turn_count by exactly
one, the summarizer node leaves it unchanged, and along any run the number
of participant entries in the transcript always equals turn_count. -/
theorem c7_turn_count_invariant :
    (∀ s r, (agent_1_node s r).turn_count = s.turn_count + 1) ∧
    (∀ s r, (agent_2_node s r).turn_count = s.turn_count + 1) ∧
    (∀ s r, (summarizer_node s r).turn_count = s.turn_count) ∧
    (∀ (o : Nat → RawContent) fuel n s, pcount s.messages = s.turn_count →
      pcount (runAux o fuel n s).2.messages = (runAux o fuel n s).2.turn_count) :=
  ⟨fun _ _ => rfl, fun _ _ => rfl, fun _ _ => rfl,
   fun o fuel n s h => pcount_turn_count_runAux o fuel n s h⟩

/-- C7 witness: the run invariant instantiated on a concrete eight-turn
conversation. -/
theorem c7_turn_count_invariant_witness :
    pcount (initState [] 8 4).messages = (initState [] 8 4).turn_count ∧
    pcount (runAux constOracle 18 GNode.agent1 (initState [] 8 4)).2.messages =
      (runAux constOracle 18 GNode.agent1 (initState [] 8 4)).2.turn_count :=
  ⟨by decide,
   c7_turn_count_invariant.2.2.2 constOracle 18 GNode.agent1 (initState [] 8 4) (by decide)⟩

/-- C8 (confirmed): when the normalized response is empty, each node
substitutes its own fixed fallback sentence (the three fallbacks are
pairwise distinct), still appends the labeled message, and a participant
turn still increments turn_count. -/
theorem c8_empty_response_fallback (s : ConvState) (r : RawContent)
    (h : clean_response_content r = []) :
    (agent_2_node s r).messages =
      s.messages ++ [⟨Role.assistant, labelAgent2 ++ fallbackAgent2⟩] ∧
    (agent_2_node s r).turn_count = s.turn_count + 1 ∧
    (agent_1_node s r).messages =
      s.messages ++ [⟨Role.assistant, labelAgent1 ++ fallbackAgent1⟩] ∧
    (agent_1_node s r).turn_count = s.turn_count + 1 ∧
    (summarizer_node s r).messages =
      s.messages ++ [⟨Role.assistant, labelSummarizer ++ fallbackSummarizer⟩] ∧
    (fallbackAgent1 ≠ fallbackAgent2 ∧ fallbackAgent1 ≠ fallbackSummarizer ∧
     fallbackAgent2 ≠ fallbackSummarizer) := by
  refine ⟨?_, rfl, ?_, rfl, ?_, by decide, by decide, by decide⟩
  · rw [(agent_2_node_fields s r).2.2.2, h]
    simp
  · rw [(agent_1_node_fields s r).2.2.2, h]
    simp
  · rw [(summarizer_node_fields s r).2.2.2, h]
    simp

/-- C8 witness: a whitespace-only raw response from Participant B yields
the fixed Participant-B fallback and an incremented turn_count. -/
theorem c8_empty_response_fallback_witness :
    clean_response_content (RawContent.str "   ".toList) = [] ∧
    ((agent_2_node (initState [] 8 4) (RawContent.str "   ".toList)).messages =
      (initState [] 8 4).messages ++
        [⟨Role.assistant, labelAgent2 ++ fallbackAgent2⟩] ∧
     (agent_2_node (initState [] 8 4) (RawContent.str "   ".toList)).turn_count =
      (initState [] 8 4).turn_count + 1) := by
  refine ⟨by decide, ?_, ?_⟩
  · exact (c8_empty_response_fallback (initState [] 8 4)
      (RawContent.str "   ".toList) (by decide)).1
  · exact (c8_empty_response_fallback (initState [] 8 4)
      (RawContent.str "   ".toList) (by decide)).2.1

/-- C9 (confirmed): a structured raw result is concatenated fragment by
fragment in order with no separator, unrecognized fragments contributing
their generic string form, and the scenario list with text ab followed by
plain cd normalizes to abcd. -/
theorem c9_fragment_concatenation :
    (∀ bs cs : List Fragment,
      extractContent (RawContent.list (bs ++ cs)) =
        extractContent (RawContent.list bs) ++ extractContent (RawContent.list cs)) ∧
    (∀ t : Str, extractContent (RawContent.list [Fragment.other t]) = t) ∧
    (∀ t : Str, extractContent (RawContent.list [Fragment.dictNoText t]) = t) ∧
    clean_response_content
        (RawContent.list [Fragment.dictWithText "ab".toList, Fragment.other "cd".toList]) =
      "abcd".toList := by
  refine ⟨?_, ?_, ?_, by decide⟩
  · intro bs cs
    simp [extractContent]
  · intro t
    simp [extractContent, Fragment.text]
  · intro t
    simp [extractContent, Fragment.text]

/-- C10 (confirmed): every message a node appends is an assistant-role
entry whose content starts with the bracketed speaker label followed by
colon and space; the label prefix, not the role, is what distinguishes the
speaker. -/
theorem c10_label_prefix_invariant (s : ConvState) (r : RawContent) :
    (∃ m, (agent_1_node s r).messages = s.messages ++ [m] ∧
      m.role = Role.assistant ∧ labelAgent1 <+: m.content ∧
      isParticipantMsg m = true ∧ isSummarizerMsg m = false) ∧
    (∃ m, (agent_2_node s r).messages = s.messages ++ [m] ∧
      m.role = Role.assistant ∧ labelAgent2 <+: m.content ∧
      isParticipantMsg m = true ∧ isSummarizerMsg m = false) ∧
    (∃ m, (summarizer_node s r).messages = s.messages ++ [m] ∧
      m.role = Role.assistant ∧ labelSummarizer <+: m.content ∧
      isSummarizerMsg m = true ∧ isParticipantMsg m = false) :=
  ⟨⟨_, (agent_1_node_fields s r).2.2.2, rfl, List.prefix_append _ _,
     isParticipantMsg_a1 _, isSummarizerMsg_a1 _⟩,
   ⟨_, (agent_2_node_fields s r).2.2.2, rfl, List.prefix_append _ _,
     isParticipantMsg_a2 _, isSummarizerMsg_a2 _⟩,
   ⟨_, (summarizer_node_fields s r).2.2.2, rfl, List.prefix_append _ _,
     isSummarizerMsg_sum _, isParticipantMsg_sum _⟩⟩
